import Mathlib

/-!
A shallow embedding, in Lean 4, of the statement-expansion and record-metadata
core of the `sequel` Go package (files `dialect.go` and `builder.go`), together
with proofs of the behavioural claims made about it.

Conventions of the embedding:
* Go's `reflect` values are modelled by the inductive type `Sequel.Value`,
  Go struct types by `Sequel.StructField` lists, and `reflect.Type` (to the
  extent the embedded code inspects it) by `Sequel.Ty`.
* Fallible Go functions returning `(T, error)` become `Except String T`;
  the error strings mirror the `errors.Errorf` format strings of the source.
  Spots where the Go code would panic (out-of-range indexing) are modelled as
  `Except.error` values whose message starts with `panic:`.
* The in-place `strings.Builder` / `*int` out-parameters of `expandParameter`
  become explicit state: functions return the written text, the appended
  argument list, and the advanced placeholder index.
* Go type names in error messages are abbreviated (`struct`, `slice`, ...)
  since the embedding does not track full Go type syntax.
-/

namespace Sequel

/-! ## Go struct shapes

A Go struct type is a list of fields.  `FTy` records just as much about a
field's type as `builder.go` inspects: whether the field type is one of the
scanner-like leaf types (`time.Time`, `[]byte`, or an `sql.Scanner`
implementation), a nested struct, a slice/array, or any other kind (the
`default` branch of `collectFieldIndexes`). -/

mutual

inductive FTy where
  | scannerLeaf : FTy
  | structTy : List StructField → FTy
  | sliceTy : FTy
  | plain : FTy
  deriving Repr

inductive StructField where
  | mk : (goName : String) → (anonymous : Bool) → (tag : Option String) → (fty : FTy) → StructField
  deriving Repr

end

def StructField.goName : StructField → String
  | .mk n _ _ _ => n

def StructField.anonymous : StructField → Bool
  | .mk _ a _ _ => a

def StructField.tag : StructField → Option String
  | .mk _ _ t _ => t

def StructField.fty : StructField → FTy
  | .mk _ _ _ t => t

/-- Go: the `field` struct of `builder.go`. -/
structure field where
  name : String
  index : List Nat
  managed : Bool
  pk : Bool
  deriving Repr, DecidableEq

/-- Go: the `builder` struct of `builder.go`.  The Go `map[string]field` is
modelled as the association list of `(name, field)` insertions in order;
lookup takes the last binding, mirroring map overwrite semantics. -/
structure builder where
  pk : String
  t : List StructField
  fields : List String
  fieldMap : List (String × field)

/-- Lookup in the modelled `map[string]field`: the most recent insertion wins,
and a missing key yields Go's zero value `field{}`. -/
def mapGet (m : List (String × field)) (k : String) : field :=
  (m.foldl (fun acc p => if p.1 = k then some p.2 else acc) none).getD ⟨"", [], false, false⟩

/-- Modelled from the spec: `builder.go` line 159 calls a `camelCase` word
splitter that is not among the provided sources.  Per the spec (§4.2 and the
repository README), field names are the lower-snake-case form of the Go
member name, e.g. `MyIDField` → `my_id_field`; so the splitter breaks a name
into words at lower-to-upper transitions and at the last upper of an
upper-case run that is followed by a lower-case letter. -/
def camelCaseSplit (s : String) : List String :=
  let chars := s.data
  let boundary : Option Char → Char → Option Char → Bool := fun prev c next =>
    match prev with
    | none => false
    | some p =>
      (c.isUpper && !p.isUpper) ||
      (c.isUpper && p.isUpper && (match next with | some n => n.isLower | none => false))
  let rec go : List Char → Option Char → List Char → List (List Char)
    | [], _, acc => if acc.isEmpty then [] else [acc.reverse]
    | c :: rest, prev, acc =>
      if boundary prev c rest.head? then
        (if acc.isEmpty then [] else [acc.reverse]) ++ go rest (some c) [c]
      else
        go rest (some c) (c :: acc)
  (go chars none []).map (fun w => String.mk w)

/-- Charwise model of Go `strings.ToLower` for this use. -/
def toLowerStr (s : String) : String :=
  String.mk (s.data.map Char.toLower)

/-- Charwise model of Go `strings.Split(tag, ",")` (always returns at least
one element). -/
def splitComma (s : String) : List String :=
  let rec go : List Char → List Char → List String
    | [], acc => [String.mk acc.reverse]
    | c :: rest, acc =>
      if c = ',' then String.mk acc.reverse :: go rest []
      else go rest (c :: acc)
  go s.data []

/-- The attribute loop of Go `parseField` (`builder.go` lines 170-179). -/
def applyTagAttrs (goName : String) : List String → field → Except String field
  | [], out => .ok out
  | part :: rest, out =>
    if part = "managed" then applyTagAttrs goName rest { out with managed := true }
    else if part = "pk" then applyTagAttrs goName rest { out with pk := true }
    else .error ("field " ++ goName ++ ": invalid tag attribute \"" ++ part ++ "\"")

/-- Go: `parseField` (`builder.go` lines 158-181). -/
def parseField (goName : String) (tag : Option String) (index : List Nat) :
    Except String field :=
  let name := toLowerStr (String.intercalate "_" (camelCaseSplit goName))
  let out : field := { name := name, index := index, managed := false, pk := false }
  match tag with
  | none => .ok out
  | some t =>
    match splitComma t with
    | [] => .ok out -- unreachable: strings.Split never returns an empty slice
    | p0 :: rest =>
      let out := if p0 ≠ "" then { out with name := p0 } else out
      applyTagAttrs goName rest out

mutual

/-- Go: `collectFieldIndexes` (`builder.go` lines 114-156). -/
def collectFieldIndexes (fs : List StructField) : Except String (List field) :=
  collectFrom fs 0

/-- The indexed loop body of `collectFieldIndexes`. -/
def collectFrom : List StructField → Nat → Except String (List field)
  | [], _ => .ok []
  | .mk n anon tag fty :: rest, i =>
    match fty with
    | .scannerLeaf => do
      let fld ← parseField n tag [i]
      let tl ← collectFrom rest (i + 1)
      .ok (fld :: tl)
    | .plain => do
      let fld ← parseField n tag [i]
      let tl ← collectFrom rest (i + 1)
      .ok (fld :: tl)
    | .sliceTy => .error ("can't select into slice field \"" ++ n ++ "\"")
    | .structTy inner =>
      if anon then do
        let sub ← collectFieldIndexes inner
        let sub := sub.map (fun fl => { fl with index := i :: fl.index })
        let tl ← collectFrom rest (i + 1)
        .ok (sub ++ tl)
      else
        .error ("struct field \"" ++ n ++ "\" must implement sql.Scanner to be mapped to a field")

end

/-! ## Go types and values as seen by `expandParameter` -/

/-- `reflect.Type`, to the extent the embedded code inspects it. -/
inductive Ty where
  | intTy | strTy | floatTy | boolTy | valuerTy
  | structTy : List StructField → Ty
  | sliceTy : Ty
  | ptrTy : Ty → Ty
  | ifaceTy : Ty → Ty
  | otherTy : String → Ty
  deriving Repr

/-- Abbreviated Go type names, used only inside error messages. -/
def tyName : Ty → String
  | .intTy => "int"
  | .strTy => "string"
  | .floatTy => "float64"
  | .boolTy => "bool"
  | .valuerTy => "driver.Valuer"
  | .structTy _ => "struct"
  | .sliceTy => "slice"
  | .ptrTy t => "*" ++ tyName t
  | .ifaceTy t => "interface " ++ tyName t
  | .otherTy n => n

/-- Go: `indirectType` (`builder.go` lines 55-61). -/
def indirectType : Ty → Ty
  | .ptrTy t => indirectType t
  | .ifaceTy t => indirectType t
  | t => t

/-- Go: `makeRowBuilderForType` (`builder.go` lines 71-112), without the
process-wide memoization cache and its lock (pure recomputation; the cached
and the freshly computed builder are identical). -/
def makeRowBuilderForType (t : Ty) : Except String builder :=
  match indirectType t with
  | .structTy fs => do
    let fields ← collectFieldIndexes fs
    .ok { t := fs
          fields := fields.map (·.name)
          fieldMap := fields.map (fun f => (f.name, f))
          pk := fields.foldl (fun pk f => if f.pk then f.name else pk) "" }
  | t' => .error ("can only build rows for structs not " ++ tyName t')

/-- Go: `(*builder).filteredFields` (`builder.go` lines 197-205). -/
def builder.filteredFields (b : builder) (withManaged : Bool) : List String :=
  b.fields.filter (fun f => withManaged || !(mapGet b.fieldMap f).managed)

/-- A Go runtime value, as discriminated by the `reflect.Kind`/`driver.Valuer`
dispatch of `expandParameter`.  Numeric payloads are carried opaquely (the
expansion never inspects them, it only moves them to the output list):
`vFloat`'s payload stands for the float's bits. -/
inductive Value where
  | vInt : Int → Value
  | vStr : String → Value
  | vFloat : Int → Value
  | vBool : Bool → Value
  | vValuer : Nat → Value
  | vSlice : List Value → Value
  | vStruct : List StructField → List Value → Value
  | vPtrNil : Ty → Value
  | vPtr : Value → Value
  | vIface : Value → Value
  | vOther : String → Value
  deriving Repr

/-- Go `reflect.TypeOf` on the modelled values. -/
def typeOf : Value → Ty
  | .vInt _ => .intTy
  | .vStr _ => .strTy
  | .vFloat _ => .floatTy
  | .vBool _ => .boolTy
  | .vValuer _ => .valuerTy
  | .vSlice _ => .sliceTy
  | .vStruct fs _ => .structTy fs
  | .vPtrNil t => .ptrTy t
  | .vPtr v => .ptrTy (typeOf v)
  | .vIface v => .ifaceTy (typeOf v)
  | .vOther n => .otherTy n

/-- Go `reflect.Value.FieldByIndex`: descend through an index chain.  A struct
value's direct field values are the entries of its value list. -/
def fieldByIndex : Value → List Nat → Option Value
  | v, [] => some v
  | .vStruct _ vals, i :: rest =>
    match vals[i]? with
    | some v => fieldByIndex v rest
    | none => none
  | _, _ :: _ => none

/-! ## Dialects -/

/-- The `dialect` interface of `dialect.go`, restricted to the members the
expansion engine uses (`Name`, `QuoteID`, `Placeholder`).  `Upsert`/`Insert`
are modelled separately. -/
structure Dialect where
  Name : String
  QuoteID : String → String
  Placeholder : Nat → String

/-- Go: `quoteBacktick` (`dialect.go` lines 247-250); the single-character
`strings.ReplaceAll` is modelled charwise. -/
def quoteBacktick (s : String) : String :=
  "`" ++ String.mk (s.data.foldr (fun c acc => if c = '`' then '`' :: '`' :: acc else c :: acc) []) ++ "`"

/-- Model of Go `strconv.Quote` as used by the postgres `QuoteID` on printable
ASCII identifiers: wrap in double quotes, escaping `"` and `\`. -/
def strconvQuote (s : String) : String :=
  "\"" ++ String.mk (s.data.foldr
    (fun c acc =>
      if c = '"' then '\\' :: '"' :: acc
      else if c = '\\' then '\\' :: '\\' :: acc
      else c :: acc) []) ++ "\""

/-- Go: `quoteAndJoinIDs` (`dialect.go` lines 252-258). -/
def quoteAndJoinIDs (quoteID : String → String) (ids : List String) : String :=
  String.intercalate ", " (ids.map quoteID)

/-- The mysql dialect (`dialect.go` lines 130-151). -/
def mysqlDialect : Dialect :=
  { Name := "mysql", QuoteID := quoteBacktick, Placeholder := fun _ => "?" }

/-- The sqlite dialect (`dialect.go` lines 175-184). -/
def sqliteDialect : Dialect :=
  { Name := "sqlite", QuoteID := quoteBacktick, Placeholder := fun _ => "?" }

/-- The postgres dialect (`dialect.go` lines 186-192). -/
def pqDialect : Dialect :=
  { Name := "postgres", QuoteID := strconvQuote, Placeholder := fun n => "$" ++ toString (n + 1) }

/-! ## Lexer

`lexerRegex` (`dialect.go` lines 14-22) is the ordered alternation

    (\?) | (\*\*) | (\*) | ("(?:\.|[^"])*") | ('(?:\.|[^'])*') |
    (`(?:\.|[^`])*`) | ([^$*?"']+)

run with `FindAllStringSubmatch` under Go's leftmost-first semantics.  The
model below reproduces exactly that tokenization:
* at each scan position the alternatives are tried in order;
* a quoted alternative matches up to the first closing delimiter (the `\.`
  branch inside the classes is the literal character `.`, subsumed by the
  class) and fails when the span is unterminated;
* the text alternative `[^$*?"']+` takes the maximal run of characters other
  than `$ * ? " '` — note that the back-quote character is *in* this class;
* a position at which no alternative matches (`$`, an unterminated `"`/`'`)
  contributes nothing to the output and scanning resumes one rune later. -/

inductive Token where
  | question
  | doubleStar
  | star
  | dquoted : String → Token
  | squoted : String → Token
  | bquoted : String → Token
  | text : String → Token
  deriving Repr, DecidableEq

/-- The verbatim source text of a token, as `match[0]` of the regex. -/
def Token.src : Token → String
  | .question => "?"
  | .doubleStar => "**"
  | .star => "*"
  | .dquoted s => s
  | .squoted s => s
  | .bquoted s => s
  | .text s => s

/-- Scan a quoted span after its opening delimiter `q`: the content is the
run of characters before the first following `q`; fails when there is none. -/
def scanQuoted (q : Char) : List Char → Option (List Char × List Char)
  | [] => none
  | c :: rest =>
    if c = q then some ([], rest)
    else (scanQuoted q rest).map (fun p => (c :: p.1, p.2))

theorem length_le_of_dropWhile (p : α → Bool) (l : List α) :
    (l.dropWhile p).length ≤ l.length :=
  List.Sublist.length_le (List.dropWhile_sublist p)

theorem scanQuoted_length {q : Char} :
    ∀ {cs content rest : List Char}, scanQuoted q cs = some (content, rest) →
      rest.length < cs.length := by
  intro cs
  induction cs with
  | nil => intro content rest h; simp [scanQuoted] at h
  | cons c cs ih =>
    intro content rest h
    by_cases hc : c = q
    · rw [scanQuoted, if_pos hc] at h
      simp at h
      obtain ⟨-, h2⟩ := h
      subst h2
      simp
    · rw [scanQuoted, if_neg hc] at h
      cases hsc : scanQuoted q cs with
      | none => rw [hsc] at h; simp at h
      | some p =>
        obtain ⟨c1, r1⟩ := p
        rw [hsc] at h
        simp at h
        obtain ⟨-, h2⟩ := h
        have := ih hsc
        subst h2
        simp
        omega

/-- Membership of a character in the text-run class `[^$*?"']`. -/
def isTextChar (c : Char) : Bool :=
  !(c = '$' || c = '*' || c = '?' || c = '"' || c = '\'')

/-- The tokenization performed by `lexerRegex.FindAllStringSubmatch`. -/
def lex : List Char → List Token
  | [] => []
  | c :: rest =>
    if c = '?' then .question :: lex rest
    else if c = '*' then
      if rest.head? = some '*' then .doubleStar :: lex rest.tail
      else .star :: lex rest
    else if c = '"' then
      match h : scanQuoted '"' rest with
      | some (content, rem) => .dquoted (String.mk ('"' :: content ++ ['"'])) :: lex rem
      | none => lex rest
    else if c = '\'' then
      match h : scanQuoted '\'' rest with
      | some (content, rem) => .squoted (String.mk ('\'' :: content ++ ['\''])) :: lex rem
      | none => lex rest
    else if c = '`' then
      match h : scanQuoted '`' rest with
      | some (content, rem) => .bquoted (String.mk ('`' :: content ++ ['`'])) :: lex rem
      | none =>
        -- no back-quoted match: the text alternative matches, and the
        -- back-quote itself is a text character
        .text (String.mk ('`' :: rest.takeWhile isTextChar)) :: lex (rest.dropWhile isTextChar)
    else if c = '$' then lex rest
    else .text (String.mk (c :: rest.takeWhile isTextChar)) :: lex (rest.dropWhile isTextChar)
termination_by cs => cs.length
decreasing_by
  all_goals simp_wf
  all_goals first
    | omega
    | (simp [List.length_tail]; omega)
    | (have hq := scanQuoted_length h; omega)
    | (have hw := length_le_of_dropWhile isTextChar rest; omega)

/-! ## Value expansion

`expandParameter` (`dialect.go` lines 310-385) writes to a `strings.Builder`
and advances an `int` index through pointers; the model returns the written
text, the list of appended output arguments, and the advanced index.  An
output argument is an `Option Value`: `none` is the Go `nil` appended for a
nil pointer. -/

/-- The struct-field loop of `expandParameter` (`dialect.go` lines 348-357):
for each filtered field name, a separator (except before the first), the
field value appended to the output list, and one placeholder. -/
def expandStructFields (d : Dialect) (b : builder) (v : Value) :
    List String → Nat → Bool → Except String (String × List (Option Value) × Nat)
  | [], index, _ => .ok ("", [], index)
  | name :: rest, index, isFirst =>
    let f := mapGet b.fieldMap name
    match fieldByIndex v f.index with
    | none => .error "panic: invalid field index"
    | some fv =>
      (expandStructFields d b v rest (index + 1) false).map fun r =>
        ((if isFirst then "" else ", ") ++ d.Placeholder index ++ r.1,
         some fv :: r.2.1, r.2.2)

mutual

/-- Go: `expandParameter` (`dialect.go` lines 310-385). -/
def expandParameter (d : Dialect) (withManaged wrap : Bool) (index : Nat) (v : Value) :
    Except String (String × List (Option Value) × Nat) :=
  match v with
  | .vValuer n => .ok (d.Placeholder index, [some (.vValuer n)], index + 1)
  | .vInt n => .ok (d.Placeholder index, [some (.vInt n)], index + 1)
  | .vStr s => .ok (d.Placeholder index, [some (.vStr s)], index + 1)
  | .vFloat x => .ok (d.Placeholder index, [some (.vFloat x)], index + 1)
  | .vSlice xs => expandSlice d withManaged wrap index xs true
  | .vStruct fs vals => do
    let b ← makeRowBuilderForType (.structTy fs)
    let r ← expandStructFields d b (.vStruct fs vals) (b.filteredFields withManaged) index true
    .ok ((if wrap then "(" else "") ++ r.1 ++ (if wrap then ")" else ""), r.2.1, r.2.2)
  | .vPtrNil _ => .ok (d.Placeholder index, [none], index + 1)
  | .vPtr w => expandParameter d withManaged wrap index w
  | .vIface w => expandParameter d withManaged wrap index w
  | .vBool b => .error ("unsupported parameter " ++ tyName (typeOf (.vBool b)))
  | .vOther n => .error ("unsupported parameter " ++ tyName (typeOf (.vOther n)))

/-- The slice/array loop of `expandParameter` (`dialect.go` lines 327-337). -/
def expandSlice (d : Dialect) (withManaged wrap : Bool) (index : Nat) :
    List Value → Bool → Except String (String × List (Option Value) × Nat)
  | [], _ => .ok ("", [], index)
  | x :: rest, isFirst => do
    let r1 ← expandParameter d withManaged wrap index x
    let r2 ← expandSlice d withManaged wrap r1.2.2 rest false
    .ok ((if isFirst then "" else ", ") ++ r1.1 ++ r2.1, r1.2.1 ++ r2.2.1, r2.2.2)

end

/-! ## Statement expansion -/

/-- The `paramBuilder` resolution of `expand`'s `**` branch (`dialect.go`
lines 288-295): the supplied builder if any, otherwise the builder derived
from the current positional argument's type (`reflect.TypeOf(args[argi])`;
indexing past the end of `args` would panic in Go). -/
def resolveParamBuilder (b : Option builder) (args : List Value) (argi : Nat) :
    Except String builder :=
  match b with
  | some pb => .ok pb
  | none =>
    match args[argi]? with
    | some arg => makeRowBuilderForType (typeOf arg)
    | none => .error "panic: runtime error: index out of range"

/-- Go: the token loop of `expand` (`dialect.go` lines 264-305), over the
token list produced by the lexer.  `argi` counts consumed bound arguments,
`outIndex` is the placeholder output position. -/
def expandTokens (d : Dialect) (withManaged : Bool) (b : Option builder) :
    List Token → List Value → Nat → Nat → Except String (String × List (Option Value))
  | [], _, _, _ => .ok ("", [])
  | .question :: rest, args, argi, outIndex =>
    if h : argi < args.length then do
      let r ← expandParameter d withManaged true outIndex args[argi]
      let r2 ← expandTokens d withManaged b rest args (argi + 1) r.2.2
      .ok (r.1 ++ r2.1, r.2.1 ++ r2.2)
    else
      .error ("placeholder " ++ toString argi ++ " is out of range")
  | .doubleStar :: rest, args, argi, outIndex => do
    let paramBuilder ← resolveParamBuilder b args argi
    let r2 ← expandTokens d withManaged b rest args argi outIndex
    .ok (quoteAndJoinIDs d.QuoteID paramBuilder.fields ++ r2.1, r2.2)
  | tok :: rest, args, argi, outIndex => do
    let r2 ← expandTokens d withManaged b rest args argi outIndex
    .ok (tok.src ++ r2.1, r2.2)

/-- Go: `expand` (`dialect.go` lines 264-305). -/
def expand (d : Dialect) (withManaged : Bool) (b : Option builder)
    (query : String) (args : List Value) : Except String (String × List (Option Value)) :=
  expandTokens d withManaged b (lex query.data) args 0 0

/-- Two's-complement wrap-around of Go `int64` arithmetic: the canonical
representative of `n` modulo `2^64` in `[-2^63, 2^63)`.  Every `int64`
addition/subtraction in the embedded code is followed by this wrap. -/
def wrap64 (n : Int) : Int := (n + 2 ^ 63) % 2 ^ 64 - 2 ^ 63

theorem wrap64_eq_self (n : Int) (h1 : -(2 ^ 63) ≤ n) (h2 : n < 2 ^ 63) :
    wrap64 n = n := by
  unfold wrap64
  omega

/-! ## Last-insert-id recovery

`lastInsertMixin.Insert` (`dialect.go` lines 68-128) builds and executes an
INSERT and then recovers generated ids from the execution result.  The model
below embeds the part after `ops.Exec` returns (lines 93-127), with the
execution outcome passed in explicitly:
* `affected` is the (successfully retrieved) `result.RowsAffected()`;
* `lastInsertId` is `none` when `result.LastInsertId()` returned an error
  (the Go code then returns `nil, nil`), otherwise `some lastID`;
* a caller row is represented by the integer value of its primary-key field
  (the only part of a row this code can modify), so `rowsPk` has one entry
  per inserted row and `count = rowsPk.length` (in the source, `count` from
  `typeForMutationRows` always equals `slice.Len()`);
* `pk` is `builder.pk` for the row shape.
The id arithmetic is Go `int64` arithmetic: each addition/subtraction wraps
(two's complement, modelled by `wrap64`); `lastID` and `affected`, being
`int64` values themselves, are assumed representable.
The returned pair is (recovered ids if any, the rows' pk values after the
`SetInt` loop). -/
def lastInsertMixinInsertTail (idIsFirst : Bool) (pk : String) (rowsPk : List Int)
    (affected : Int) (lastInsertId : Option Int) :
    Except String (Option (List Int) × List Int) :=
  let count := rowsPk.length
  if affected ≠ count then
    .error ("affected rows " ++ toString affected ++ " did not match row count of " ++ toString count)
  else
    match lastInsertId with
    | none => .ok (none, rowsPk)
    | some lastID =>
      let ids : List Int :=
        if idIsFirst then
          -- Go: ids = append(ids, int64(i)+lastID)
          (List.range count).map (fun (i : Nat) => wrap64 ((i : Int) + lastID))
        else
          -- Go: base := lastID - int64(count); id := base + 1 + int64(i)
          let base := wrap64 (lastID - (count : Int))
          (List.range count).map (fun (i : Nat) => wrap64 (wrap64 (base + 1) + (i : Int)))
      .ok (some ids, if pk ≠ "" then ids else rowsPk)

/-! ## Placeholder-slot skeletons

To state the invariant that the emitted placeholders use exactly the
consecutive indices `0, 1, ..., k-1`, we factor the output of the expansion
into a *skeleton*: a list of slots, each either a literal text fragment
(`some s`) or a placeholder slot (`none`).  The skeleton is independent of
the dialect's `Placeholder` function; `render` re-assembles the actual
statement text by filling the placeholder slots at consecutive indices. -/

abbrev Slot := Option String

/-- Number of placeholder slots in a skeleton. -/
def countNone : List Slot → Nat
  | [] => 0
  | none :: rest => countNone rest + 1
  | some _ :: rest => countNone rest

/-- Fill a skeleton's placeholder slots with `ph i, ph (i+1), ...`. -/
def render (ph : Nat → String) : Nat → List Slot → String
  | _, [] => ""
  | i, some s :: rest => s ++ render ph i rest
  | i, none :: rest => ph i ++ render ph (i + 1) rest

theorem countNone_append (l1 l2 : List Slot) :
    countNone (l1 ++ l2) = countNone l1 + countNone l2 := by
  induction l1 with
  | nil => simp [countNone]
  | cons s rest ih =>
    cases s <;> simp [countNone, ih] <;> omega

theorem render_append (ph : Nat → String) (i : Nat) (l1 l2 : List Slot) :
    render ph i (l1 ++ l2) = render ph i l1 ++ render ph (i + countNone l1) l2 := by
  induction l1 generalizing i with
  | nil => simp [render, countNone]
  | cons s rest ih =>
    cases s with
    | none => simp [render, countNone, ih, String.append_assoc]; ring_nf
    | some t => simp [render, countNone, ih, String.append_assoc]

/-- Skeleton counterpart of `expandStructFields`. -/
def skelStructFields (b : builder) (v : Value) :
    List String → Bool → Except String (List Slot × List (Option Value))
  | [], _ => .ok ([], [])
  | name :: rest, isFirst =>
    let f := mapGet b.fieldMap name
    match fieldByIndex v f.index with
    | none => .error "panic: invalid field index"
    | some fv =>
      (skelStructFields b v rest false).map fun r =>
        ((if isFirst then [] else [some ", "]) ++ none :: r.1, some fv :: r.2)

mutual

/-- Skeleton counterpart of `expandParameter`: same control flow and output
arguments, but the statement text is kept as a slot list and no placeholder
index is threaded. -/
def skelParameter (withManaged wrap : Bool) : Value → Except String (List Slot × List (Option Value))
  | .vValuer n => .ok ([none], [some (.vValuer n)])
  | .vInt n => .ok ([none], [some (.vInt n)])
  | .vStr s => .ok ([none], [some (.vStr s)])
  | .vFloat x => .ok ([none], [some (.vFloat x)])
  | .vSlice xs => skelSlice withManaged wrap xs true
  | .vStruct fs vals => do
    let b ← makeRowBuilderForType (.structTy fs)
    let r ← skelStructFields b (.vStruct fs vals) (b.filteredFields withManaged) true
    .ok ((if wrap then [some "("] else []) ++ r.1 ++ (if wrap then [some ")"] else []), r.2)
  | .vPtrNil _ => .ok ([none], [none])
  | .vPtr w => skelParameter withManaged wrap w
  | .vIface w => skelParameter withManaged wrap w
  | .vBool b => .error ("unsupported parameter " ++ tyName (typeOf (.vBool b)))
  | .vOther n => .error ("unsupported parameter " ++ tyName (typeOf (.vOther n)))

/-- Skeleton counterpart of `expandSlice`. -/
def skelSlice (withManaged wrap : Bool) :
    List Value → Bool → Except String (List Slot × List (Option Value))
  | [], _ => .ok ([], [])
  | x :: rest, isFirst => do
    let r1 ← skelParameter withManaged wrap x
    let r2 ← skelSlice withManaged wrap rest false
    .ok ((if isFirst then [] else [some ", "]) ++ r1.1 ++ r2.1, r1.2 ++ r2.2)

end

/-- Skeleton counterpart of `expandTokens`; depends on the dialect only
through its `QuoteID` function (used by `**`), never through `Placeholder`. -/
def skelTokens (quoteID : String → String) (withManaged : Bool) (b : Option builder) :
    List Token → List Value → Nat → Except String (List Slot × List (Option Value))
  | [], _, _ => .ok ([], [])
  | .question :: rest, args, argi =>
    if h : argi < args.length then do
      let r ← skelParameter withManaged true args[argi]
      let r2 ← skelTokens quoteID withManaged b rest args (argi + 1)
      .ok (r.1 ++ r2.1, r.2 ++ r2.2)
    else
      .error ("placeholder " ++ toString argi ++ " is out of range")
  | .doubleStar :: rest, args, argi => do
    let paramBuilder ← resolveParamBuilder b args argi
    let r2 ← skelTokens quoteID withManaged b rest args argi
    .ok (some (quoteAndJoinIDs quoteID paramBuilder.fields) :: r2.1, r2.2)
  | tok :: rest, args, argi => do
    let r2 ← skelTokens quoteID withManaged b rest args argi
    .ok (some tok.src :: r2.1, r2.2)

/-- Skeleton counterpart of `expand`. -/
def skelExpand (quoteID : String → String) (withManaged : Bool) (b : Option builder)
    (query : String) (args : List Value) : Except String (List Slot × List (Option Value)) :=
  skelTokens quoteID withManaged b (lex query.data) args 0

/-! ## Correspondence between the expansion and its skeleton -/

@[simp] theorem exceptMap_ok {ε α β : Type} (f : α → β) (a : α) :
    Except.map f (Except.ok a : Except ε α) = .ok (f a) := rfl

@[simp] theorem exceptMap_error {ε α β : Type} (f : α → β) (e : ε) :
    Except.map f (Except.error e : Except ε α) = .error e := rfl

@[simp] theorem exceptBind_ok {ε α β : Type} (f : α → Except ε β) (a : α) :
    (Except.ok a : Except ε α) >>= f = f a := rfl

@[simp] theorem exceptBind_error {ε α β : Type} (f : α → Except ε β) (e : ε) :
    (Except.error e : Except ε α) >>= f = .error e := rfl

/-- The statement of the correspondence for one value: expansion equals the
rendered skeleton with placeholder indices starting at `i`, and the skeleton
has exactly one placeholder slot per output argument. -/
def ParamSpec (v : Value) : Prop :=
  ∀ (d : Dialect) (wm wrap : Bool) (i : Nat),
    (expandParameter d wm wrap i v =
      (skelParameter wm wrap v).map
        (fun r => (render d.Placeholder i r.1, r.2, i + countNone r.1))) ∧
    ∀ r, skelParameter wm wrap v = .ok r → countNone r.1 = r.2.length

theorem expandStructFields_skel (d : Dialect) (b : builder) (v : Value)
    (names : List String) (isFirst : Bool) (i : Nat) :
    (expandStructFields d b v names i isFirst =
      (skelStructFields b v names isFirst).map
        (fun r => (render d.Placeholder i r.1, r.2, i + countNone r.1))) ∧
    ∀ r, skelStructFields b v names isFirst = .ok r → countNone r.1 = r.2.length := by
  induction names generalizing isFirst i with
  | nil => simp [expandStructFields, skelStructFields, render, countNone]
  | cons name rest ih =>
    rw [expandStructFields, skelStructFields]
    cases hfv : fieldByIndex v (mapGet b.fieldMap name).index with
    | none => simp
    | some fv =>
      obtain ⟨ih1, ih2⟩ := ih false (i + 1)
      cases hsk : skelStructFields b v rest false with
      | error e => simp [ih1, hsk, Except.map]
      | ok r =>
        have hc := ih2 r hsk
        constructor
        · simp only [ih1, hsk, Except.map, render_append, countNone_append]
          cases isFirst <;>
            simp [render, countNone, String.append_assoc, String.empty_append] <;>
            omega
        · intro r' hr'
          simp only [Except.map] at hr'
          cases hr'
          cases isFirst <;> simp [countNone_append, countNone, hc]

theorem skelSlice_spec (xs : List Value) (hxs : ∀ x ∈ xs, ParamSpec x)
    (d : Dialect) (wm wrap : Bool) :
    ∀ (isFirst : Bool) (i : Nat),
    (expandSlice d wm wrap i xs isFirst =
      (skelSlice wm wrap xs isFirst).map
        (fun r => (render d.Placeholder i r.1, r.2, i + countNone r.1))) ∧
    ∀ r, skelSlice wm wrap xs isFirst = .ok r → countNone r.1 = r.2.length := by
  induction xs with
  | nil => intro isFirst i; simp [expandSlice, skelSlice, render, countNone]
  | cons x rest ih =>
    intro isFirst i
    have hx := hxs x (by simp)
    have hrest := ih (fun y hy => hxs y (by simp [hy]))
    obtain ⟨hx1, hx2⟩ := hx d wm wrap i
    rw [expandSlice, skelSlice]
    cases hskx : skelParameter wm wrap x with
    | error e => simp [hx1, hskx, Except.map]
    | ok r1 =>
      have hc1 := hx2 r1 hskx
      obtain ⟨hr1, hr2⟩ := hrest false (i + countNone r1.1)
      cases hskr : skelSlice wm wrap rest false with
      | error e => simp [hx1, hskx, hr1, hskr, Except.map]
      | ok r2 =>
        have hc2 := hr2 r2 hskr
        constructor
        · simp only [hx1, hskx, exceptMap_ok, exceptBind_ok, hr1, hskr,
            render_append, countNone_append]
          cases isFirst <;>
            simp [render, countNone, String.append_assoc, String.empty_append] <;>
            omega
        · intro r' hr'
          simp only [hskx, hskr, exceptBind_ok, exceptMap_ok, Except.ok.injEq] at hr'
          subst hr'
          cases isFirst <;> simp [countNone_append, countNone, hc1, hc2]

theorem skelParameter_spec : ∀ v : Value, ParamSpec v := by
  have main : ∀ (n : Nat) (v : Value), sizeOf v ≤ n → ParamSpec v := by
    intro n
    induction n with
    | zero =>
      intro v hv
      exact absurd hv (by cases v <;> simp <;> omega)
    | succ n ihn =>
      intro v hv
      have IH : ∀ w : Value, sizeOf w < sizeOf v → ParamSpec w :=
        fun w hw => ihn w (by omega)
      intro d wm wrap i
      cases v with
      | vValuer k =>
        simp [expandParameter, skelParameter, render, countNone, String.append_empty]
      | vInt k =>
        simp [expandParameter, skelParameter, render, countNone, String.append_empty]
      | vStr s =>
        simp [expandParameter, skelParameter, render, countNone, String.append_empty]
      | vFloat x =>
        simp [expandParameter, skelParameter, render, countNone, String.append_empty]
      | vBool bb => simp [expandParameter, skelParameter]
      | vOther nm => simp [expandParameter, skelParameter]
      | vPtrNil t =>
        simp [expandParameter, skelParameter, render, countNone, String.append_empty]
      | vPtr w =>
        have hw := IH w (by simp)
        rw [expandParameter, skelParameter]
        exact hw d wm wrap i
      | vIface w =>
        have hw := IH w (by simp)
        rw [expandParameter, skelParameter]
        exact hw d wm wrap i
      | vSlice xs =>
        have helem : ∀ x ∈ xs, ParamSpec x := by
          intro x hx
          refine IH x ?_
          have := List.sizeOf_lt_of_mem hx
          simp
          omega
        rw [expandParameter, skelParameter]
        exact skelSlice_spec xs helem d wm wrap true i
      | vStruct fs vals =>
        rw [expandParameter, skelParameter]
        cases hb : makeRowBuilderForType (Ty.structTy fs) with
        | error e => simp
        | ok b =>
          obtain ⟨hs1, hs2⟩ :=
            expandStructFields_skel d b (.vStruct fs vals) (b.filteredFields wm) true i
          cases hsk : skelStructFields b (.vStruct fs vals) (b.filteredFields wm) true with
          | error e => simp [hs1, hsk]
          | ok r =>
            have hc := hs2 r hsk
            constructor
            · simp only [exceptBind_ok, hs1, hsk, exceptMap_ok]
              cases wrap <;>
                simp [render_append, countNone_append, render, countNone,
                  String.append_assoc, String.append_empty, String.empty_append]
            · intro r' hr'
              simp only [exceptBind_ok, hsk, exceptMap_ok, Except.ok.injEq] at hr'
              subst hr'
              cases wrap <;> simp [countNone_append, countNone, hc]
  exact fun v => main (sizeOf v) v le_rfl

theorem skelTokens_spec (d : Dialect) (wm : Bool) (b : Option builder) :
    ∀ (toks : List Token) (args : List Value) (argi oi : Nat),
    (expandTokens d wm b toks args argi oi =
      (skelTokens d.QuoteID wm b toks args argi).map
        (fun r => (render d.Placeholder oi r.1, r.2))) ∧
    ∀ r, skelTokens d.QuoteID wm b toks args argi = .ok r → countNone r.1 = r.2.length := by
  intro toks
  induction toks with
  | nil => intro args argi oi; simp [expandTokens, skelTokens, render, countNone]
  | cons tok rest ih =>
    intro args argi oi
    cases tok
    case question =>
      rw [expandTokens, skelTokens]
      by_cases h : argi < args.length
      · simp only [dif_pos h]
        obtain ⟨hp1, hp2⟩ := skelParameter_spec args[argi] d wm true oi
        cases hskp : skelParameter wm true args[argi] with
        | error e => simp [hp1, hskp]
        | ok r1 =>
          have hc1 := hp2 r1 hskp
          obtain ⟨hr1, hr2⟩ := ih args (argi + 1) (oi + countNone r1.1)
          cases hskr : skelTokens d.QuoteID wm b rest args (argi + 1) with
          | error e => simp [hp1, hskp, hr1, hskr]
          | ok r2 =>
            have hc2 := hr2 r2 hskr
            constructor
            · simp [hp1, hskp, hr1, hskr, render_append, countNone_append]
            · intro r' hr'
              simp only [exceptBind_ok, hskp, hskr, exceptMap_ok, Except.ok.injEq] at hr'
              subst hr'
              simp [countNone_append, hc1, hc2]
      · simp [dif_neg h]
    case doubleStar =>
      rw [expandTokens, skelTokens]
      obtain ⟨hr1, hr2⟩ := ih args argi oi
      cases hpb : resolveParamBuilder b args argi with
      | error e => simp [hpb]
      | ok pb =>
        cases hskr : skelTokens d.QuoteID wm b rest args argi with
        | error e => simp [hpb, hr1, hskr]
        | ok r2 =>
          have hc2 := hr2 r2 hskr
          constructor
          · simp [hpb, hr1, hskr, render, countNone]
          · intro r' hr'
            simp only [hpb, exceptBind_ok, hskr, exceptMap_ok, Except.ok.injEq] at hr'
            subst hr'
            simp [countNone, hc2]
    all_goals
      obtain ⟨hr1, hr2⟩ := ih args argi oi
      cases hskr : skelTokens d.QuoteID wm b rest args argi with
      | error e => simp [expandTokens, skelTokens, hr1, hskr]
      | ok r2 =>
        have hc2 := hr2 r2 hskr
        refine ⟨?_, ?_⟩
        · simp [expandTokens, skelTokens, hr1, hskr, render, countNone]
        · intro r' hr'
          simp only [skelTokens, hskr, exceptBind_ok, exceptMap_ok,
            Except.ok.injEq] at hr'
          subst hr'
          simp [countNone, hc2]

/-! ## Statement-side vocabulary for the claims -/

/-- "joined by `sep`": `x1 ++ sep ++ x2 ++ ... ++ xn`. -/
def joinSep (sep : String) : List String → String
  | [] => ""
  | [x] => x
  | x :: xs => x ++ sep ++ joinSep sep xs

/-- `sep` before every element: `sep ++ x1 ++ sep ++ x2 ++ ...`. -/
def sepEach (sep : String) : List String → String
  | [] => ""
  | x :: xs => sep ++ x ++ sepEach sep xs

theorem joinSep_cons (sep : String) : ∀ (xs : List String) (x : String),
    joinSep sep (x :: xs) = x ++ sepEach sep xs := by
  intro xs
  induction xs with
  | nil => intro x; simp [joinSep, sepEach, String.append_empty]
  | cons y ys ih =>
    intro x
    simp only [joinSep, sepEach]
    rw [ih y]
    simp [String.append_assoc]

/-- The dialect placeholders at the `k` consecutive indices
`i, i+1, ..., i+k-1`, in order. -/
def phList (d : Dialect) : Nat → Nat → List String
  | _, 0 => []
  | i, k + 1 => d.Placeholder i :: phList d (i + 1) k

/-- `n` parenthesized placeholder groups of `k` placeholders each, the first
group starting at index `i`, consecutive indices throughout. -/
def groupList (d : Dialect) (k : Nat) : Nat → Nat → List String
  | _, 0 => []
  | i, n + 1 =>
    ("(" ++ joinSep ", " (phList d i k) ++ ")") :: groupList d k (i + k) n

/-- The name of the last `pk`-tagged field of a collected field list
(Go's loop keeps overwriting, so the last one wins), or `""` if none. -/
def lastPkName (fields : List field) : String :=
  ((fields.reverse.find? (fun f => f.pk)).map (fun f => f.name)).getD ""

/-- Number of `?` value-placeholder tokens in a token stream. -/
def numQuestions : List Token → Nat
  | [] => 0
  | .question :: rest => numQuestions rest + 1
  | _ :: rest => numQuestions rest

theorem foldl_pk_eq_lastPk (fields : List field) :
    ∀ init : String,
      fields.foldl (fun pk f => if f.pk then f.name else pk) init =
        ((fields.reverse.find? (fun f => f.pk)).map (fun f => f.name)).getD init := by
  induction fields with
  | nil => intro init; simp
  | cons f rest ih =>
    intro init
    rw [List.foldl_cons, ih]
    simp only [List.reverse_cons, List.find?_append]
    cases hfind : rest.reverse.find? (fun f => f.pk) with
    | some g => simp
    | none =>
      by_cases hpk : f.pk <;> simp [List.find?, hpk]

/-! ## Closed forms for record and sequence expansion -/

theorem expandStructFields_closed (d : Dialect) (b : builder) (v : Value) :
    ∀ (names : List String) (fvs : List Value) (i : Nat),
      List.Forall₂ (fun n fv =>
          fieldByIndex v (mapGet b.fieldMap n).index = some fv) names fvs →
      (expandStructFields d b v names i false =
        .ok (sepEach ", " (phList d i names.length), fvs.map some, i + names.length)) ∧
      (expandStructFields d b v names i true =
        .ok (joinSep ", " (phList d i names.length), fvs.map some, i + names.length)) := by
  intro names
  induction names with
  | nil =>
    intro fvs i h
    cases h
    simp [expandStructFields, phList, sepEach, joinSep]
  | cons n rest ih =>
    intro fvs i h
    cases h with
    | cons hfv hrest =>
      obtain ⟨ihf, -⟩ := ih _ (i + 1) hrest
      constructor
      · rw [expandStructFields]
        simp only [hfv, ihf, exceptMap_ok]
        simp [phList, sepEach, String.append_assoc, Nat.add_assoc,
          Nat.add_comm 1 rest.length]
      · rw [expandStructFields]
        simp only [hfv, ihf, exceptMap_ok]
        simp [phList, joinSep_cons, String.append_assoc, String.empty_append,
          Nat.add_assoc, Nat.add_comm 1 rest.length]

theorem expandParameter_record (d : Dialect) (wm : Bool) (i : Nat)
    (fs : List StructField) (vals : List Value) (b : builder) (fvs : List Value)
    (hb : makeRowBuilderForType (Ty.structTy fs) = .ok b)
    (h : List.Forall₂ (fun n fv =>
        fieldByIndex (Value.vStruct fs vals) (mapGet b.fieldMap n).index = some fv)
      (b.filteredFields wm) fvs) :
    expandParameter d wm true i (Value.vStruct fs vals) =
      .ok ("(" ++ joinSep ", " (phList d i (b.filteredFields wm).length) ++ ")",
           fvs.map some, i + (b.filteredFields wm).length) := by
  obtain ⟨-, htrue⟩ :=
    expandStructFields_closed d b (Value.vStruct fs vals) (b.filteredFields wm) fvs i h
  rw [expandParameter]
  simp [hb, htrue, String.append_assoc]

theorem expandSlice_rows (d : Dialect) (wm : Bool)
    (fs : List StructField) (b : builder)
    (hb : makeRowBuilderForType (Ty.structTy fs) = .ok b) :
    ∀ (rows : List Value) (rowVals : List (List Value)) (i : Nat),
      List.Forall₂ (fun v fvs =>
        (∃ vals, v = Value.vStruct fs vals) ∧
        List.Forall₂ (fun n fv =>
            fieldByIndex v (mapGet b.fieldMap n).index = some fv)
          (b.filteredFields wm) fvs) rows rowVals →
      (expandSlice d wm true i rows false =
        .ok (sepEach ", " (groupList d (b.filteredFields wm).length i rows.length),
             rowVals.flatten.map some,
             i + rows.length * (b.filteredFields wm).length)) ∧
      (expandSlice d wm true i rows true =
        .ok (joinSep ", " (groupList d (b.filteredFields wm).length i rows.length),
             rowVals.flatten.map some,
             i + rows.length * (b.filteredFields wm).length)) := by
  intro rows
  induction rows with
  | nil =>
    intro rowVals i h
    cases h
    simp [expandSlice, groupList, sepEach, joinSep]
  | cons v rows ih =>
    intro rowVals i h
    cases h with
    | cons hrow hrest =>
      obtain ⟨⟨vals, rfl⟩, hf⟩ := hrow
      have hrec := expandParameter_record d wm i fs vals b _ hb hf
      obtain ⟨ihf, -⟩ := ih _ (i + (b.filteredFields wm).length) hrest
      have karith : i + (b.filteredFields wm).length +
          rows.length * (b.filteredFields wm).length =
          i + (rows.length + 1) * (b.filteredFields wm).length := by
        rw [Nat.succ_mul]; omega
      constructor
      · rw [expandSlice]
        simp only [hrec, exceptBind_ok, ihf, Except.ok.injEq, List.length_cons, groupList]
        simp [sepEach, String.append_assoc, karith]
      · rw [expandSlice]
        simp only [hrec, exceptBind_ok, ihf, Except.ok.injEq, List.length_cons, groupList]
        simp [joinSep_cons, String.append_assoc, String.empty_append, karith]

theorem rowVals_flatten_length (k : Nat) :
    ∀ (rows : List Value) (rowVals : List (List Value)),
      List.Forall₂ (fun (_ : Value) fvs => (fvs : List Value).length = k) rows rowVals →
      rowVals.flatten.length = rows.length * k := by
  intro rows
  induction rows with
  | nil => intro rowVals h; cases h; simp
  | cons v rows ih =>
    intro rowVals h
    cases h with
    | cons hlen hrest =>
      simp [ih _ hrest, hlen, Nat.succ_mul]
      omega

/-! ## Exhaustion of the bound-argument list -/

theorem expandTokens_oor (d : Dialect) (wm : Bool) (pb : builder) :
    ∀ (toks : List Token) (args : List Value) (argi oi : Nat),
      argi ≤ args.length →
      args.length - argi < numQuestions toks →
      (∀ a ∈ args, (skelParameter wm true a).isOk = true) →
      expandTokens d wm (some pb) toks args argi oi =
        .error ("placeholder " ++ toString args.length ++ " is out of range") := by
  intro toks
  induction toks with
  | nil =>
    intro args argi oi h1 h2 h3
    simp [numQuestions] at h2
  | cons tok rest ih =>
    intro args argi oi h1 h2 h3
    cases tok
    case question =>
      rw [expandTokens]
      by_cases h : argi < args.length
      · simp only [dif_pos h]
        have hok := h3 args[argi] (List.getElem_mem h)
        cases hskp : skelParameter wm true args[argi] with
        | error e => rw [hskp] at hok; simp [Except.isOk, Except.toBool] at hok
        | ok r =>
          obtain ⟨hp1, -⟩ := skelParameter_spec args[argi] d wm true oi
          rw [hp1, hskp]
          simp only [exceptMap_ok, exceptBind_ok]
          rw [ih args (argi + 1) (oi + countNone r.1) (by omega)
            (by simp only [numQuestions] at h2; omega) h3]
          rfl
      · have heq : argi = args.length := by omega
        simp [dif_neg h, heq]
    case doubleStar =>
      rw [expandTokens]
      simp only [resolveParamBuilder, exceptBind_ok]
      rw [ih args argi oi h1 (by simpa [numQuestions] using h2) h3]
      rfl
    all_goals
      simp only [expandTokens]
      rw [ih args argi oi h1 (by simpa [numQuestions] using h2) h3]
      rfl

/-! ## Head composition for the `**` token -/

theorem lex_doubleStar_head (s : String) :
    lex ("**" ++ s).data = Token.doubleStar :: lex s.data := by
  have hdata : ("**" ++ s).data = '*' :: '*' :: s.data := by
    rw [String.data_append]
    rfl
  rw [hdata, lex]
  simp

theorem expandTokens_doubleStar_some (d : Dialect) (wm : Bool) (pb : builder)
    (rest : List Token) (args : List Value) (argi oi : Nat) :
    expandTokens d wm (some pb) (.doubleStar :: rest) args argi oi =
      (expandTokens d wm (some pb) rest args argi oi).map
        (fun r => (quoteAndJoinIDs d.QuoteID pb.fields ++ r.1, r.2)) := by
  rw [expandTokens]
  simp only [resolveParamBuilder, exceptBind_ok]
  cases h : expandTokens d wm (some pb) rest args argi oi <;> simp

theorem expandTokens_doubleStar_none (d : Dialect) (wm : Bool)
    (rest : List Token) (arg : Value) (args' : List Value) (oi : Nat) :
    (∀ db, makeRowBuilderForType (typeOf arg) = .ok db →
      expandTokens d wm none (.doubleStar :: rest) (arg :: args') 0 oi =
        (expandTokens d wm none rest (arg :: args') 0 oi).map
          (fun r => (quoteAndJoinIDs d.QuoteID db.fields ++ r.1, r.2))) ∧
    (∀ e, makeRowBuilderForType (typeOf arg) = .error e →
      expandTokens d wm none (.doubleStar :: rest) (arg :: args') 0 oi = .error e) := by
  constructor
  · intro db hdb
    rw [expandTokens]
    simp only [resolveParamBuilder, List.getElem?_cons_zero, hdb, exceptBind_ok]
    cases h : expandTokens d wm none rest (arg :: args') 0 oi <;> simp
  · intro e he
    rw [expandTokens]
    simp only [resolveParamBuilder, List.getElem?_cons_zero, he, exceptBind_error]

/-! ## Concrete shapes used by witnesses and counterexamples -/

/-- A record shape with three plain fields `A`, `B`, `C` (mapped columns
`a`, `b`, `c`). -/
def c1Shape : List StructField :=
  [.mk "A" false none .plain, .mk "B" false none .plain, .mk "C" false none .plain]

/-- The builder derived from `c1Shape`. -/
def c1B : builder :=
  ⟨"", c1Shape, ["a", "b", "c"],
    [("a", ⟨"a", [0], false, false⟩), ("b", ⟨"b", [1], false, false⟩),
     ("c", ⟨"c", [2], false, false⟩)]⟩

theorem c1B_spec : makeRowBuilderForType (Ty.structTy c1Shape) = .ok c1B := by
  have hcollect : collectFieldIndexes c1Shape =
      .ok [⟨"a", [0], false, false⟩, ⟨"b", [1], false, false⟩, ⟨"c", [2], false, false⟩] := by
    simp only [collectFieldIndexes, collectFrom, c1Shape, parseField]
    rfl
  simp only [makeRowBuilderForType, indirectType, hcollect, exceptBind_ok]
  rfl

/-- A record shape with a `managed`-tagged field `A` and a plain field `B`. -/
def c3Shape : List StructField :=
  [.mk "A" false (some ",managed") .plain, .mk "B" false none .plain]

/-- The builder derived from `c3Shape`: field `a` is managed. -/
def c3B : builder :=
  ⟨"", c3Shape, ["a", "b"],
    [("a", ⟨"a", [0], true, false⟩), ("b", ⟨"b", [1], false, false⟩)]⟩

theorem c3B_spec : makeRowBuilderForType (Ty.structTy c3Shape) = .ok c3B := by
  have hcollect : collectFieldIndexes c3Shape =
      .ok [⟨"a", [0], true, false⟩, ⟨"b", [1], false, false⟩] := by
    simp only [collectFieldIndexes, collectFrom, c3Shape, parseField]
    simp [splitComma, splitComma.go, applyTagAttrs]
    exact ⟨rfl, rfl⟩
  simp only [makeRowBuilderForType, indirectType, hcollect, exceptBind_ok]
  rfl

/-- A record shape with two `pk`-tagged fields. -/
def c8Shape : List StructField :=
  [.mk "A" false (some ",pk") .plain, .mk "B" false (some ",pk") .plain]

theorem c8Shape_collect : collectFieldIndexes c8Shape =
    .ok [⟨"a", [0], false, true⟩, ⟨"b", [1], false, true⟩] := by
  simp only [collectFieldIndexes, collectFrom, c8Shape, parseField]
  simp [splitComma, splitComma.go, applyTagAttrs]
  exact ⟨rfl, rfl⟩

/-! ## The claims -/

/-- C7 counterexample: a plain boolean bound argument is *not* expanded
successfully — `reflect.Bool` is absent from the scalar-kind switch of
`expandParameter`, so a `bool` falls through to the `default` branch and
fails with `unsupported parameter bool`, contradicting the claim that
boolean scalars expand to one placeholder. -/
theorem c7_counterexample :
    expandParameter pqDialect false true 0 (Value.vBool true) =
      .error "unsupported parameter bool" ∧
    (expandParameter pqDialect false true 0 (Value.vBool true)).isOk = false := by
  exact ⟨rfl, rfl⟩

/-- C7 (amended): for every dialect and every scalar bound argument that is
numeric (int/uint/float), a string, or a value implementing `driver.Valuer`,
expansion succeeds, emits exactly one dialect placeholder at the current
output position index, appends that scalar to the output argument list, and
advances the index by one; a plain boolean, however, is not supported and
fails with an `unsupported parameter bool` error. -/
theorem c7_scalar_expansion (d : Dialect) (wm wrap : Bool) (i : Nat)
    (n : Int) (s : String) (x : Int) (k : Nat) (bb : Bool) :
    expandParameter d wm wrap i (Value.vInt n) =
      .ok (d.Placeholder i, [some (Value.vInt n)], i + 1) ∧
    expandParameter d wm wrap i (Value.vStr s) =
      .ok (d.Placeholder i, [some (Value.vStr s)], i + 1) ∧
    expandParameter d wm wrap i (Value.vFloat x) =
      .ok (d.Placeholder i, [some (Value.vFloat x)], i + 1) ∧
    expandParameter d wm wrap i (Value.vValuer k) =
      .ok (d.Placeholder i, [some (Value.vValuer k)], i + 1) ∧
    expandParameter d wm wrap i (Value.vBool bb) =
      .error "unsupported parameter bool" := by
  refine ⟨rfl, rfl, rfl, rfl, rfl⟩

/-- C8 counterexample: deriving metadata for a shape whose field list has two
`pk`-tagged fields *succeeds* (and the second `pk` field wins), contradicting
the claim that it fails with a configuration error. -/
theorem c8_counterexample :
    (makeRowBuilderForType (Ty.structTy c8Shape)).isOk = true ∧
    (makeRowBuilderForType (Ty.structTy c8Shape)).map builder.pk = .ok "b" := by
  constructor <;>
    simp only [makeRowBuilderForType, indirectType, c8Shape_collect, exceptBind_ok] <;>
    rfl

/-- C8 (amended): metadata derivation never fails merely because several
fields are tagged `pk`: whenever field collection succeeds, the builder is
produced, and its primary key is the *last* `pk`-tagged field in flattened
declaration order (the collection loop keeps overwriting `pk`). -/
theorem c8_last_pk_wins (fs : List StructField) (fields : List field)
    (h : collectFieldIndexes fs = .ok fields) :
    makeRowBuilderForType (Ty.structTy fs) =
      .ok { pk := lastPkName fields, t := fs, fields := fields.map field.name,
            fieldMap := fields.map (fun f => (f.name, f)) } := by
  simp only [makeRowBuilderForType, indirectType, h, exceptBind_ok]
  rw [foldl_pk_eq_lastPk]
  rfl

/-- C8 witness: the amended claim at the two-`pk` shape: derivation succeeds
and the second field `b` is the primary key. -/
theorem c8_last_pk_wins_witness :
    makeRowBuilderForType (Ty.structTy c8Shape) =
      .ok { pk := "b", t := c8Shape, fields := ["a", "b"],
            fieldMap := [("a", ⟨"a", [0], false, true⟩), ("b", ⟨"b", [1], false, true⟩)] } := by
  have h := c8_last_pk_wins c8Shape
    [⟨"a", [0], false, true⟩, ⟨"b", [1], false, true⟩] c8Shape_collect
  simpa [lastPkName] using h

/-- C9: for the last-insert-id based Insert, if the executor's reported
affected-row count differs from the row count, the operation fails with the
row-count-mismatch error naming both counts; structurally this check
precedes id recovery and the primary-key write-back, so neither happens
(the error carries no ids and no updated rows). -/
theorem c9_row_count_mismatch (idIsFirst : Bool) (pk : String) (rowsPk : List Int)
    (affected : Int) (lastId : Option Int)
    (h : affected ≠ rowsPk.length) :
    lastInsertMixinInsertTail idIsFirst pk rowsPk affected lastId =
      .error ("affected rows " ++ toString affected ++
        " did not match row count of " ++ toString rowsPk.length) := by
  simp [lastInsertMixinInsertTail, h]

/-- C9 witness: 2 rows, 3 affected. -/
theorem c9_row_count_mismatch_witness :
    lastInsertMixinInsertTail true "id" [0, 0] 3 (some 5) =
      .error "affected rows 3 did not match row count of 2" := by
  have h := c9_row_count_mismatch true "id" [0, 0] 3 (some 5) (by decide)
  simpa using h

/-- C2 counterexample: the id recovery uses Go `int64` arithmetic, which
wraps.  For a 2-row MySQL-style insert whose reported first id is
`MaxInt64 = 2^63 - 1`, the recovered list is `[2^63-1, -2^63]` — not
`L, L+1` and not ascending — and these wrapped values are what gets written
to the rows' primary keys, refuting the claim as stated at the wrap
boundary. -/
theorem c2_counterexample :
    lastInsertMixinInsertTail true "id" [0, 0] 2 (some 9223372036854775807) =
      .ok (some [9223372036854775807, -9223372036854775808],
           [9223372036854775807, -9223372036854775808]) ∧
    [(9223372036854775807 : Int), -9223372036854775808] ≠
      [9223372036854775807, 9223372036854775808] ∧
    (-9223372036854775808 : Int) < 9223372036854775807 := by
  refine ⟨rfl, by decide, by decide⟩

/-- C2 (amended): the recovered ids are computed with wrapping `int64`
arithmetic; whenever the whole batch stays inside the `int64` range
(`-2^63 ≤ L - N` and `L + N ≤ 2^63`), the recovered id list is
`L, L+1, ..., L+N-1` when the dialect reports the first inserted id
(`idIsFirst`, MySQL) and `L-N+1, ..., L` when it reports the last
(SQLite); both lists are then strictly ascending, and when the shape has a
primary key each row's pk value is set to its recovered id in insertion
order (the rows' pk list afterwards is exactly the id list). -/
theorem c2_last_insert_id_recovery (L : Int) (rowsPk : List Int) (pk : String)
    (hpk : pk ≠ "")
    (hlo : -(2 ^ 63) ≤ L - (rowsPk.length : Int))
    (hhi : L + (rowsPk.length : Int) ≤ 2 ^ 63) :
    (lastInsertMixinInsertTail true pk rowsPk rowsPk.length (some L) =
      .ok (some ((List.range rowsPk.length).map (fun (i : Nat) => L + (i : Int))),
           (List.range rowsPk.length).map (fun (i : Nat) => L + (i : Int)))) ∧
    (lastInsertMixinInsertTail false pk rowsPk rowsPk.length (some L) =
      .ok (some ((List.range rowsPk.length).map
             (fun (i : Nat) => L - (rowsPk.length : Int) + 1 + (i : Int))),
           (List.range rowsPk.length).map
             (fun (i : Nat) => L - (rowsPk.length : Int) + 1 + (i : Int)))) ∧
    ((List.range rowsPk.length).map (fun (i : Nat) => L + (i : Int))).Pairwise (· < ·) ∧
    ((List.range rowsPk.length).map
       (fun (i : Nat) => L - (rowsPk.length : Int) + 1 + (i : Int))).Pairwise (· < ·) := by
  have hfirst : (List.range rowsPk.length).map
      (fun (i : Nat) => wrap64 ((i : Int) + L)) =
      (List.range rowsPk.length).map (fun (i : Nat) => L + (i : Int)) :=
    List.map_congr_left (fun i hi => by
      have hiN := List.mem_range.mp hi
      rw [wrap64_eq_self ((i : Int) + L) (by omega) (by omega)]
      omega)
  have hlast : (List.range rowsPk.length).map
      (fun (i : Nat) => wrap64 (wrap64 (wrap64 (L - (rowsPk.length : Int)) + 1) + (i : Int))) =
      (List.range rowsPk.length).map
        (fun (i : Nat) => L - (rowsPk.length : Int) + 1 + (i : Int)) :=
    List.map_congr_left (fun i hi => by
      have hiN := List.mem_range.mp hi
      rw [wrap64_eq_self (L - (rowsPk.length : Int)) (by omega) (by omega),
        wrap64_eq_self (L - (rowsPk.length : Int) + 1) (by omega) (by omega),
        wrap64_eq_self (L - (rowsPk.length : Int) + 1 + (i : Int)) (by omega) (by omega)])
  refine ⟨?_, ?_, ?_, ?_⟩
  · simp [lastInsertMixinInsertTail, hpk, hfirst]
  · simp [lastInsertMixinInsertTail, hpk, hlast]
  · refine List.Pairwise.map _ (fun a b hab => ?_) (List.pairwise_lt_range rowsPk.length)
    omega
  · refine List.Pairwise.map _ (fun a b hab => ?_) (List.pairwise_lt_range rowsPk.length)
    omega

/-- C2 witness: three rows, reported id 10 (well inside the `int64` range):
MySQL-style recovery yields 10, 11, 12; SQLite-style recovery yields
8, 9, 10; both are written back. -/
theorem c2_last_insert_id_recovery_witness :
    lastInsertMixinInsertTail true "id" [0, 0, 0] 3 (some 10) =
      .ok (some [10, 11, 12], [10, 11, 12]) ∧
    lastInsertMixinInsertTail false "id" [0, 0, 0] 3 (some 10) =
      .ok (some [8, 9, 10], [8, 9, 10]) := by
  have h := c2_last_insert_id_recovery 10 [0, 0, 0] "id" (by decide)
    (by norm_num) (by norm_num)
  exact ⟨by simpa using h.1, by simpa using h.2.1⟩

/-- C1: for every dialect, expanding a record (struct) bound argument whose
derived metadata has exactly the three fields `n1, n2, n3` surviving the
managed-field filter emits exactly 3 dialect placeholders at consecutive
indices, enclosed in parentheses and separated by `", "`, in field
declaration order, and appends the 3 field values to the output argument
list in the same order. -/
theorem c1_record_three_fields (d : Dialect) (wm : Bool) (i : Nat)
    (fs : List StructField) (vals : List Value) (b : builder)
    (n1 n2 n3 : String) (fv1 fv2 fv3 : Value)
    (hb : makeRowBuilderForType (Ty.structTy fs) = .ok b)
    (hf : b.filteredFields wm = [n1, n2, n3])
    (h1 : fieldByIndex (Value.vStruct fs vals) (mapGet b.fieldMap n1).index = some fv1)
    (h2 : fieldByIndex (Value.vStruct fs vals) (mapGet b.fieldMap n2).index = some fv2)
    (h3 : fieldByIndex (Value.vStruct fs vals) (mapGet b.fieldMap n3).index = some fv3) :
    expandParameter d wm true i (Value.vStruct fs vals) =
      .ok ("(" ++ d.Placeholder i ++ ", " ++ d.Placeholder (i + 1) ++ ", " ++
             d.Placeholder (i + 2) ++ ")",
           [some fv1, some fv2, some fv3], i + 3) := by
  have h := expandParameter_record d wm i fs vals b [fv1, fv2, fv3] hb
    (by
      rw [hf]
      exact List.Forall₂.cons h1 (List.Forall₂.cons h2
        (List.Forall₂.cons h3 List.Forall₂.nil)))
  rw [hf] at h
  rw [h]
  simp [phList, joinSep, String.append_assoc]

/-- C1 witness: the three-field shape `c1Shape` under the postgres dialect. -/
theorem c1_record_three_fields_witness :
    expandParameter pqDialect false true 0
        (Value.vStruct c1Shape [Value.vInt 1, Value.vInt 2, Value.vInt 3]) =
      .ok ("($1, $2, $3)",
           [some (Value.vInt 1), some (Value.vInt 2), some (Value.vInt 3)], 3) := by
  have h := c1_record_three_fields pqDialect false 0 c1Shape
    [Value.vInt 1, Value.vInt 2, Value.vInt 3] c1B "a" "b" "c"
    (Value.vInt 1) (Value.vInt 2) (Value.vInt 3) c1B_spec rfl rfl rfl rfl
  simpa [pqDialect] using h

/-- C6: for every dialect, expanding a sequence of N same-shaped records
bound to one placeholder produces N parenthesized placeholder groups joined
by `", "` — with no enclosing parentheses around the whole sequence — and
the flattened output argument list has exactly N × (per-record field count)
elements, in row-major order. -/
theorem c6_sequence_of_records (d : Dialect) (wm : Bool) (i : Nat)
    (fs : List StructField) (b : builder) (rows : List Value)
    (rowVals : List (List Value))
    (hb : makeRowBuilderForType (Ty.structTy fs) = .ok b)
    (hrows : List.Forall₂ (fun v fvs =>
        (∃ vals, v = Value.vStruct fs vals) ∧
        List.Forall₂ (fun n fv =>
            fieldByIndex v (mapGet b.fieldMap n).index = some fv)
          (b.filteredFields wm) fvs) rows rowVals) :
    expandParameter d wm true i (Value.vSlice rows) =
      .ok (joinSep ", " (groupList d (b.filteredFields wm).length i rows.length),
           rowVals.flatten.map some,
           i + rows.length * (b.filteredFields wm).length) ∧
    (rowVals.flatten.map some).length =
      rows.length * (b.filteredFields wm).length := by
  obtain ⟨-, htrue⟩ := expandSlice_rows d wm fs b hb rows rowVals i hrows
  constructor
  · rw [expandParameter]
    exact htrue
  · have hlen := rowVals_flatten_length (b.filteredFields wm).length rows rowVals
      (hrows.imp (fun v fvs hp => (List.Forall₂.length_eq hp.2).symm))
    rw [List.length_map]
    exact hlen

/-- C6 witness: two rows of the three-field shape under postgres: two
groups `($1, $2, $3), ($4, $5, $6)` and 6 = 2 × 3 flattened arguments. -/
theorem c6_sequence_of_records_witness :
    expandParameter pqDialect false true 0
        (Value.vSlice
          [Value.vStruct c1Shape [Value.vInt 1, Value.vInt 2, Value.vInt 3],
           Value.vStruct c1Shape [Value.vInt 4, Value.vInt 5, Value.vInt 6]]) =
      .ok ("($1, $2, $3), ($4, $5, $6)",
           [some (Value.vInt 1), some (Value.vInt 2), some (Value.vInt 3),
            some (Value.vInt 4), some (Value.vInt 5), some (Value.vInt 6)], 6) := by
  have h := c6_sequence_of_records pqDialect false 0 c1Shape c1B
    [Value.vStruct c1Shape [Value.vInt 1, Value.vInt 2, Value.vInt 3],
     Value.vStruct c1Shape [Value.vInt 4, Value.vInt 5, Value.vInt 6]]
    [[Value.vInt 1, Value.vInt 2, Value.vInt 3],
     [Value.vInt 4, Value.vInt 5, Value.vInt 6]] c1B_spec
    (by
      refine List.Forall₂.cons ⟨⟨_, rfl⟩, ?_⟩
        (List.Forall₂.cons ⟨⟨_, rfl⟩, ?_⟩ List.Forall₂.nil) <;>
        exact List.Forall₂.cons rfl (List.Forall₂.cons rfl
          (List.Forall₂.cons rfl List.Forall₂.nil)))
  simpa [groupList, phList, joinSep, pqDialect] using h.1

/-- C4: if the number of `?` value placeholders recognized in the query
exceeds the number of bound arguments — while the expansion metadata is
supplied and each bound argument itself expands successfully — expansion
fails with the out-of-range error naming the 0-based ordinal of the first
unmatched placeholder (which equals the bound-argument count), and returns
no statement or argument list (the result is an error value). -/
theorem c4_placeholder_out_of_range (d : Dialect) (wm : Bool) (pb : builder)
    (q : String) (args : List Value)
    (hq : args.length < numQuestions (lex q.data))
    (hargs : ∀ a ∈ args, (skelParameter wm true a).isOk = true) :
    expand d wm (some pb) q args =
      .error ("placeholder " ++ toString args.length ++ " is out of range") :=
  expandTokens_oor d wm pb (lex q.data) args 0 0 (Nat.zero_le _) (by omega) hargs

/-- C4 witness: two placeholders, one bound argument: the error names
ordinal 1 (the second placeholder, 0-based). -/
theorem c4_placeholder_out_of_range_witness :
    expand pqDialect false (some c1B) "? ?" [Value.vInt 1] =
      .error "placeholder 1 is out of range" := by
  have h := c4_placeholder_out_of_range pqDialect false c1B "? ?" [Value.vInt 1]
    (by
      show 1 < numQuestions (lex ['?', ' ', '?'])
      simp [lex, isTextChar, numQuestions])
    (by intro a ha; simp at ha; subst ha; rfl)
  simpa using h

/-- C5 (code bug): the lexer's text-run alternative `[^$*?"']+` fails to
exclude the back-quote character, so a back-quoted span that starts right
after ordinary text is swallowed into the text run and a `?` inside it IS
recognized as a value placeholder — contradicting the claimed opacity of
back-quoted spans (the regex's dedicated back-quote alternative shows the
intent).  In the query `` x`?` `` the inner `?` consumes a bound argument
(postgres rewrites it to `$1`) or, with no arguments left, fails with the
out-of-range error; the same query with double quotes is opaque as the
claim states. -/
theorem c5_backquote_span_not_opaque :
    lex ("x`?`").data = [Token.text "x`", Token.question, Token.text "`"] ∧
    expand pqDialect false none "x`?`" [Value.vInt 7] =
      .ok ("x`$1`", [some (Value.vInt 7)]) ∧
    expand pqDialect false none "x`?`" [] =
      .error "placeholder 0 is out of range" ∧
    expand pqDialect false none "x\"?\"" [] = .ok ("x\"?\"", []) := by
  have hlex : lex ("x`?`").data = [Token.text "x`", Token.question, Token.text "`"] := by
    show lex ['x', '`', '?', '`'] = _
    simp [lex, isTextChar, scanQuoted]
  have hlex2 : lex ("x\"?\"").data = [Token.text "x", Token.dquoted "\"?\""] := by
    show lex ['x', '"', '?', '"'] = _
    simp [lex, isTextChar, scanQuoted]
  refine ⟨hlex, ?_, ?_, ?_⟩
  · show expandTokens pqDialect false none (lex ("x`?`").data) [Value.vInt 7] 0 0 = _
    rw [hlex]; rfl
  · show expandTokens pqDialect false none (lex ("x`?`").data) [] 0 0 = _
    rw [hlex]; rfl
  · show expandTokens pqDialect false none (lex ("x\"?\"").data) [] 0 0 = _
    rw [hlex2]; rfl

/-- C3 counterexample: with metadata present whose field `a` is managed and
`includeManaged` off, `**` expands to the quoted join of *all* fields
(`` `a`, `b` ``), not the filtered list (`` `b` ``) the claim requires. -/
theorem c3_counterexample :
    expand mysqlDialect false (some c3B) "**" [] = .ok ("`a`, `b`", []) ∧
    quoteAndJoinIDs mysqlDialect.QuoteID (c3B.filteredFields false) = "`b`" ∧
    ("`a`, `b`" : String) ≠ "`b`" := by
  refine ⟨?_, by rfl, by decide⟩
  show expandTokens mysqlDialect false (some c3B) (lex ("**").data) [] 0 0 = _
  have hlex : lex ("**").data = [Token.doubleStar] := by
    show lex ['*', '*'] = _
    simp [lex]
  rw [hlex]; rfl

/-- C3 (amended): a `**` wildcard with metadata present is rewritten to the
quoted, comma-joined list of *all* of that metadata's field names — managed
fields included regardless of the managed-field policy flag; when no
metadata is supplied, a builder is derived from the current positional
argument's type, and if that derivation fails (the argument is not a
record) expansion fails with that error — it never degrades to a literal
`*`. -/
theorem c3_wildcard_expansion (d : Dialect) (wm : Bool) (pb : builder)
    (args : List Value) (suffix : String) :
    (expand d wm (some pb) ("**" ++ suffix) args =
      (expand d wm (some pb) suffix args).map
        (fun r => (quoteAndJoinIDs d.QuoteID pb.fields ++ r.1, r.2))) ∧
    (∀ arg args' db, args = arg :: args' →
       makeRowBuilderForType (typeOf arg) = .ok db →
       expand d wm none ("**" ++ suffix) args =
         (expand d wm none suffix args).map
           (fun r => (quoteAndJoinIDs d.QuoteID db.fields ++ r.1, r.2))) ∧
    (∀ arg args' e, args = arg :: args' →
       makeRowBuilderForType (typeOf arg) = .error e →
       expand d wm none ("**" ++ suffix) args = .error e) := by
  refine ⟨?_, ?_, ?_⟩
  · show expandTokens d wm (some pb) (lex ("**" ++ suffix).data) args 0 0 = _
    rw [lex_doubleStar_head, expandTokens_doubleStar_some]
    rfl
  · intro arg args' db hargs hdb
    subst hargs
    show expandTokens d wm none (lex ("**" ++ suffix).data) (arg :: args') 0 0 = _
    rw [lex_doubleStar_head,
      (expandTokens_doubleStar_none d wm (lex suffix.data) arg args' 0).1 db hdb]
    rfl
  · intro arg args' e hargs he
    subst hargs
    show expandTokens d wm none (lex ("**" ++ suffix).data) (arg :: args') 0 0 = _
    rw [lex_doubleStar_head,
      (expandTokens_doubleStar_none d wm (lex suffix.data) arg args' 0).2 e he]

/-- C3 witness: builder derived from the positional argument: `**` against a
record argument of shape `c3Shape` yields all fields, including the managed
`a`. -/
theorem c3_wildcard_expansion_witness :
    expand mysqlDialect true none "**"
        [Value.vStruct c3Shape [Value.vInt 1, Value.vInt 2]] =
      .ok ("`a`, `b`", []) := by
  have h := (c3_wildcard_expansion mysqlDialect true c3B
      [Value.vStruct c3Shape [Value.vInt 1, Value.vInt 2]] "").2.1
    (Value.vStruct c3Shape [Value.vInt 1, Value.vInt 2]) [] c3B rfl
    (by show makeRowBuilderForType (Ty.structTy c3Shape) = _; exact c3B_spec)
  simp only [String.append_empty] at h
  rw [h]
  show (expandTokens mysqlDialect true none (lex ("").data)
    [Value.vStruct c3Shape [Value.vInt 1, Value.vInt 2]] 0 0).map _ = _
  have hlex : lex ("" : String).data = [] := by
    show lex [] = _
    simp [lex]
  rw [hlex]
  rfl

/-- C10: for every expansion the statement text equals the rendering, at
consecutive indices starting from 0, of a placeholder-slot skeleton computed
without ever consulting the dialect's `Placeholder` function; and the
skeleton has exactly one placeholder slot per returned output argument.
Hence on success the number of emitted dialect placeholders equals the
length of the flattened argument list and the indices passed to
`Placeholder` are exactly `0, 1, ..., k-1` in order — so e.g. postgres
output uses `$1..$k` consecutively with no gaps or repeats. -/
theorem c10_consecutive_placeholder_indices (d : Dialect) (wm : Bool)
    (b : Option builder) (q : String) (args : List Value) :
    (expand d wm b q args =
      (skelExpand d.QuoteID wm b q args).map
        (fun r => (render d.Placeholder 0 r.1, r.2))) ∧
    (skelExpand d.QuoteID wm b q args).map (fun r => countNone r.1) =
      (skelExpand d.QuoteID wm b q args).map (fun r => r.2.length) := by
  obtain ⟨h1, h2⟩ := skelTokens_spec d wm b (lex q.data) args 0 0
  refine ⟨h1, ?_⟩
  cases hsk : skelTokens d.QuoteID wm b (lex q.data) args 0 with
  | error e => simp [skelExpand, hsk]
  | ok r => simp [skelExpand, hsk, h2 r hsk]

end Sequel
